import Mathlib

set_option maxRecDepth 4000
set_option exponentiation.threshold 4000

/-!
Verification of the checked numeric conversion (`Cast`) engine and the
capability traits (`Signed`, `Int`) of the num-traits repository.

The integer part of the model represents a machine-integer value of a
given kind as an unbounded `Int` together with the range invariant
`minValue k ≤ v ≤ maxValue k` stated in hypotheses where needed.  A
64-bit platform is assumed, so `isize`/`usize` have 8 bytes, matching
the `size_of` calls in `src/lib.rs`.  The Rust `as` conversion between
integer kinds is modelled by `asCast`, which truncates to the target
width and reinterprets the sign, exactly as two's-complement `as` does.

Floating-point values are modelled value-level: a `Fp` is NaN, a signed
infinity, a signed zero, or a nonzero finite value given as a dyadic
significand/exponent pair `Dy` (every finite IEEE-754 value is such a
dyadic rational).  IEEE comparisons, the `as` conversions involving
floats (with round-to-nearest, ties-to-even, overflow to infinity), and
the float implementations of the `Signed` trait are defined over this
representation.  All definitions are kernel-computable, so concrete
evaluations go through by `decide` or `rfl`.
-/

/-- The ten primitive integer kinds handled by the cast table of
`src/lib.rs` (a 64-bit platform is assumed for `isize`/`usize`). -/
inductive Kind where
  | i8 | i16 | i32 | i64 | isize
  | u8 | u16 | u32 | u64 | usize
deriving DecidableEq

/-- Byte width of each kind, as returned by `size_of` in `src/lib.rs`
on a 64-bit platform. -/
def Kind.bytes : Kind → Nat
  | .i8 => 1 | .i16 => 2 | .i32 => 4 | .i64 => 8 | .isize => 8
  | .u8 => 1 | .u16 => 2 | .u32 => 4 | .u64 => 8 | .usize => 8

/-- Whether the kind is a signed integer kind. -/
def Kind.signed : Kind → Bool
  | .i8 | .i16 | .i32 | .i64 | .isize => true
  | .u8 | .u16 | .u32 | .u64 | .usize => false

/-- The smallest representable value of each kind (`min_value` in
`src/lib.rs`). -/
def minValue : Kind → Int
  | .i8 => -128 | .i16 => -32768 | .i32 => -2147483648
  | .i64 => -9223372036854775808 | .isize => -9223372036854775808
  | .u8 => 0 | .u16 => 0 | .u32 => 0 | .u64 => 0 | .usize => 0

/-- The largest representable value of each kind (`max_value` in
`src/lib.rs`). -/
def maxValue : Kind → Int
  | .i8 => 127 | .i16 => 32767 | .i32 => 2147483647
  | .i64 => 9223372036854775807 | .isize => 9223372036854775807
  | .u8 => 255 | .u16 => 65535 | .u32 => 4294967295
  | .u64 => 18446744073709551615 | .usize => 18446744073709551615

/-- Reinterpretation of an integer as an unsigned value of width `w2 = 2^bits`:
the reduction modulo `2^bits` performed by a Rust `as` cast to an
unsigned type. -/
def wrapU (w2 : Int) (n : Int) : Int := n % w2

/-- Reinterpretation of an integer as a signed two's-complement value of
width `2^bits`, where `half = 2^(bits-1)` and `w2 = 2^bits`: the effect
of a Rust `as` cast to a signed type. -/
def wrapS (half w2 : Int) (n : Int) : Int :=
  let m := n % w2
  if half ≤ m then m - w2 else m

/-- The Rust `as` conversion between integer kinds: truncation to the
target width followed by sign reinterpretation. -/
def asCast : Kind → Int → Int
  | .i8, n => wrapS 128 256 n
  | .i16, n => wrapS 32768 65536 n
  | .i32, n => wrapS 2147483648 4294967296 n
  | .i64, n => wrapS 9223372036854775808 18446744073709551616 n
  | .isize, n => wrapS 9223372036854775808 18446744073709551616 n
  | .u8, n => wrapU 256 n
  | .u16, n => wrapU 65536 n
  | .u32, n => wrapU 4294967296 n
  | .u64, n => wrapU 18446744073709551616 n
  | .usize, n => wrapU 18446744073709551616 n

/-- The `impl_cast_same_type` macro of `src/lib.rs`: the identity
conversion, which always succeeds and returns the value unchanged. -/
def castSameType (x : Int) : Option Int := some x

/-- The `impl_cast_int_to_int` macro of `src/lib.rs`: if the source is
not wider than the target the cast succeeds unconditionally, otherwise
the value is compared (as `i64`) against the target bounds. -/
def castIntToInt (src dst : Kind) (x : Int) : Option Int :=
  if src.bytes ≤ dst.bytes then some (asCast dst x)
  else
    let n := asCast .i64 x
    if asCast .i64 (minValue dst) ≤ n ∧ n ≤ asCast .i64 (maxValue dst) then
      some (asCast dst x)
    else
      none

/-- The `impl_cast_int_to_uint` macro of `src/lib.rs`: a signed source
value is accepted when it is nonnegative and, compared as `u64`, at
most the target maximum. -/
def castIntToUint (dst : Kind) (x : Int) : Option Int :=
  if 0 ≤ x ∧ asCast .u64 x ≤ asCast .u64 (maxValue dst) then
    some (asCast dst x)
  else
    none

/-- The `impl_cast_uint_to_int` macro of `src/lib.rs`: an unsigned
source value is accepted when, compared as `u64`, it is at most the
target maximum. -/
def castUintToInt (dst : Kind) (x : Int) : Option Int :=
  if asCast .u64 x ≤ asCast .u64 (maxValue dst) then
    some (asCast dst x)
  else
    none

/-- The `impl_cast_uint_to_uint` macro of `src/lib.rs`: if the source is
not wider than the target the cast succeeds unconditionally, otherwise
the value is bounds-checked as `u64`.  In `src/lib.rs` this macro is
also instantiated with the signed target `i8`. -/
def castUintToUint (src dst : Kind) (x : Int) : Option Int :=
  if src.bytes ≤ dst.bytes then some (asCast dst x)
  else
    if 0 ≤ x ∧ asCast .u64 x ≤ asCast .u64 (maxValue dst) then
      some (asCast dst x)
    else
      none

/-- One block of the `Cast` instantiation table of `src/lib.rs`
(lines 269-397): the casts out of one source kind, one arm per
`impl_cast_*!` line, each arm applying the same macro as the source
line.  Note the `i8`-target lines of the unsigned blocks use
`impl_cast_uint_to_uint`, not `impl_cast_uint_to_int`. -/
def castFromI8 : Kind → Int → Option Int
  | .i8, x => castSameType x
  | .i16, x => castIntToInt .i8 .i16 x
  | .i32, x => castIntToInt .i8 .i32 x
  | .i64, x => castIntToInt .i8 .i64 x
  | .isize, x => castIntToInt .i8 .isize x
  | .u8, x => castIntToUint .u8 x
  | .u16, x => castIntToUint .u16 x
  | .u32, x => castIntToUint .u32 x
  | .u64, x => castIntToUint .u64 x
  | .usize, x => castIntToUint .usize x

def castFromI16 : Kind → Int → Option Int
  | .i8, x => castIntToInt .i16 .i8 x
  | .i16, x => castSameType x
  | .i32, x => castIntToInt .i16 .i32 x
  | .i64, x => castIntToInt .i16 .i64 x
  | .isize, x => castIntToInt .i16 .isize x
  | .u8, x => castIntToUint .u8 x
  | .u16, x => castIntToUint .u16 x
  | .u32, x => castIntToUint .u32 x
  | .u64, x => castIntToUint .u64 x
  | .usize, x => castIntToUint .usize x

def castFromI32 : Kind → Int → Option Int
  | .i8, x => castIntToInt .i32 .i8 x
  | .i16, x => castIntToInt .i32 .i16 x
  | .i32, x => castSameType x
  | .i64, x => castIntToInt .i32 .i64 x
  | .isize, x => castIntToInt .i32 .isize x
  | .u8, x => castIntToUint .u8 x
  | .u16, x => castIntToUint .u16 x
  | .u32, x => castIntToUint .u32 x
  | .u64, x => castIntToUint .u64 x
  | .usize, x => castIntToUint .usize x

def castFromI64 : Kind → Int → Option Int
  | .i8, x => castIntToInt .i64 .i8 x
  | .i16, x => castIntToInt .i64 .i16 x
  | .i32, x => castIntToInt .i64 .i32 x
  | .i64, x => castSameType x
  | .isize, x => castIntToInt .i64 .isize x
  | .u8, x => castIntToUint .u8 x
  | .u16, x => castIntToUint .u16 x
  | .u32, x => castIntToUint .u32 x
  | .u64, x => castIntToUint .u64 x
  | .usize, x => castIntToUint .usize x

def castFromIsize : Kind → Int → Option Int
  | .i8, x => castIntToInt .isize .i8 x
  | .i16, x => castIntToInt .isize .i16 x
  | .i32, x => castIntToInt .isize .i32 x
  | .i64, x => castIntToInt .isize .i64 x
  | .isize, x => castSameType x
  | .u8, x => castIntToUint .u8 x
  | .u16, x => castIntToUint .u16 x
  | .u32, x => castIntToUint .u32 x
  | .u64, x => castIntToUint .u64 x
  | .usize, x => castIntToUint .usize x

def castFromU8 : Kind → Int → Option Int
  | .i8, x => castUintToUint .u8 .i8 x
  | .i16, x => castUintToInt .i16 x
  | .i32, x => castUintToInt .i32 x
  | .i64, x => castUintToInt .i64 x
  | .isize, x => castUintToInt .isize x
  | .u8, x => castSameType x
  | .u16, x => castUintToUint .u8 .u16 x
  | .u32, x => castUintToUint .u8 .u32 x
  | .u64, x => castUintToUint .u8 .u64 x
  | .usize, x => castUintToUint .u8 .usize x

def castFromU16 : Kind → Int → Option Int
  | .i8, x => castUintToUint .u16 .i8 x
  | .i16, x => castUintToInt .i16 x
  | .i32, x => castUintToInt .i32 x
  | .i64, x => castUintToInt .i64 x
  | .isize, x => castUintToInt .isize x
  | .u8, x => castUintToUint .u16 .u8 x
  | .u16, x => castSameType x
  | .u32, x => castUintToUint .u16 .u32 x
  | .u64, x => castUintToUint .u16 .u64 x
  | .usize, x => castUintToUint .u16 .usize x

def castFromU32 : Kind → Int → Option Int
  | .i8, x => castUintToUint .u32 .i8 x
  | .i16, x => castUintToInt .i16 x
  | .i32, x => castUintToInt .i32 x
  | .i64, x => castUintToInt .i64 x
  | .isize, x => castUintToInt .isize x
  | .u8, x => castUintToUint .u32 .u8 x
  | .u16, x => castUintToUint .u32 .u16 x
  | .u32, x => castSameType x
  | .u64, x => castUintToUint .u32 .u64 x
  | .usize, x => castUintToUint .u32 .usize x

def castFromU64 : Kind → Int → Option Int
  | .i8, x => castUintToUint .u64 .i8 x
  | .i16, x => castUintToInt .i16 x
  | .i32, x => castUintToInt .i32 x
  | .i64, x => castUintToInt .i64 x
  | .isize, x => castUintToInt .isize x
  | .u8, x => castUintToUint .u64 .u8 x
  | .u16, x => castUintToUint .u64 .u16 x
  | .u32, x => castUintToUint .u64 .u32 x
  | .u64, x => castSameType x
  | .usize, x => castUintToUint .u64 .usize x

def castFromUsize : Kind → Int → Option Int
  | .i8, x => castUintToUint .usize .i8 x
  | .i16, x => castUintToInt .i16 x
  | .i32, x => castUintToInt .i32 x
  | .i64, x => castUintToInt .i64 x
  | .isize, x => castUintToInt .isize x
  | .u8, x => castUintToUint .usize .u8 x
  | .u16, x => castUintToUint .usize .u16 x
  | .u32, x => castUintToUint .usize .u32 x
  | .u64, x => castUintToUint .usize .u64 x
  | .usize, x => castSameType x

/-- The integer-to-integer part of the `Cast` instantiation table of
`src/lib.rs`, dispatching on the source kind to the per-source blocks
above. -/
def castFrom : Kind → Kind → Int → Option Int
  | .i8 => castFromI8
  | .i16 => castFromI16
  | .i32 => castFromI32
  | .i64 => castFromI64
  | .isize => castFromIsize
  | .u8 => castFromU8
  | .u16 => castFromU16
  | .u32 => castFromU32
  | .u64 => castFromU64
  | .usize => castFromUsize


/-- C1: the code evaluated at the failing input of the claim.  The claim
requires `i8::cast_from(200u8)` to be `None` (200 > 127), but the
`(u8, i8)` entry of the table is instantiated with
`impl_cast_uint_to_uint`, whose equal-byte-width branch returns
unconditionally, so the code yields the two's-complement
reinterpretation `Some(-56i8)`.  The second conjunct records the example
the code does satisfy. -/
theorem u8_to_i8_wraps_not_fails :
    castFrom .u8 .i8 200 = some (-56) ∧ castFrom .u8 .i8 100 = some 100 := by
  decide

/-- C9: for every u8 value, the cast to i8 succeeds and returns the
`as`-cast of the value, because the `(u8, i8)` entry uses the
unsigned-to-unsigned rule whose equal-byte-width branch is
unconditional; above 127 the result is the negative two's-complement
reinterpretation `v - 256`. -/
theorem u8_to_i8_always_reinterprets (v : Int) (h0 : 0 ≤ v) (h1 : v ≤ 255) :
    castFrom .u8 .i8 v = some (asCast .i8 v) ∧
      (127 < v → castFrom .u8 .i8 v = some (v - 256)) := by
  refine ⟨rfl, fun h => ?_⟩
  show some (wrapS 128 256 v) = some (v - 256)
  have hm : v % 256 = v := Int.emod_eq_of_lt h0 (by omega)
  simp only [wrapS, hm]
  rw [if_pos (by omega : (128 : Int) ≤ v)]

/-- Witness for C9 at the concrete input 200. -/
theorem u8_to_i8_always_reinterprets_witness :
    castFrom .u8 .i8 200 = some (asCast .i8 200) ∧
      (127 < (200 : Int) → castFrom .u8 .i8 200 = some (200 - 256)) :=
  u8_to_i8_always_reinterprets 200 (by decide) (by decide)

/-- C6: round-trip law over the integer kinds.  If the representable
range of `k2` contains the whole range of `k1`, then casting an
in-range value of `k1` to `k2` succeeds with the value unchanged, and
casting back to `k1` succeeds and returns the original value. -/
theorem cast_roundtrip (k1 k2 : Kind) (v : Int)
    (hmin : minValue k2 ≤ minValue k1) (hmax : maxValue k1 ≤ maxValue k2)
    (hlo : minValue k1 ≤ v) (hhi : v ≤ maxValue k1) :
    castFrom k1 k2 v = some v ∧ castFrom k2 k1 v = some v := by
  cases k1 <;> cases k2 <;>
    · norm_num [castFrom, castFromI8, castFromI16, castFromI32, castFromI64,
        castFromIsize, castFromU8, castFromU16, castFromU32, castFromU64, castFromUsize,
        castSameType, castIntToInt, castIntToUint, castUintToInt, castUintToUint,
        asCast, wrapS, wrapU, minValue, maxValue, Kind.bytes] at *
      all_goals try split_ifs
      all_goals first | trivial | omega

/-- Witness for C6: u8 fits inside i16, and 200 round-trips. -/
theorem cast_roundtrip_witness :
    castFrom .u8 .i16 200 = some 200 ∧ castFrom .i16 .u8 200 = some 200 :=
  cast_roundtrip .u8 .i16 200 (by decide) (by decide) (by decide) (by decide)

/-- The integer `2^k`, computed through the kernel-accelerated natural
power. -/
def pow2 (k : Nat) : Int := ((2 ^ k : Nat) : Int)

/-- A dyadic rational `m * 2^e`: the exact value of a nonzero finite
IEEE-754 floating-point datum.  The representation is not normalised;
comparisons align the exponents. -/
structure Dy where
  m : Int
  e : Int
deriving DecidableEq

/-- A floating-point datum, value-level: NaN, a signed infinity, a
signed zero (the Boolean is the sign bit, `true` meaning negative), or
a nonzero finite dyadic value. -/
inductive Fp where
  | nan : Fp
  | inf : Bool → Fp
  | zero : Bool → Fp
  | finite : Dy → Fp
deriving DecidableEq

/-- Value comparison of dyadic rationals: `a ≤ b` after aligning the
exponents. -/
def dyLe (a b : Dy) : Bool :=
  if a.e ≤ b.e then decide (a.m ≤ b.m * pow2 (b.e - a.e).toNat)
  else decide (a.m * pow2 (a.e - b.e).toNat ≤ b.m)

/-- Strict value comparison of dyadic rationals. -/
def dyLt (a b : Dy) : Bool :=
  if a.e ≤ b.e then decide (a.m < b.m * pow2 (b.e - a.e).toNat)
  else decide (a.m * pow2 (a.e - b.e).toNat < b.m)

/-- Value equality of dyadic rationals. -/
def dyEq (a b : Dy) : Bool :=
  if a.e ≤ b.e then decide (a.m = b.m * pow2 (b.e - a.e).toNat)
  else decide (a.m * pow2 (a.e - b.e).toNat = b.m)

/-- The dyadic value of a zero or finite datum (zeros of either sign
count as the dyadic 0, matching IEEE comparison semantics). -/
def fdy : Fp → Dy
  | .finite d => d
  | _ => ⟨0, 0⟩

/-- The IEEE `<=` comparison: false whenever an operand is NaN, both
zeros equal, infinities at the ends. -/
def fle (x y : Fp) : Bool :=
  match x, y with
  | .nan, _ => false
  | _, .nan => false
  | .inf true, _ => true
  | _, .inf false => true
  | .inf false, _ => false
  | _, .inf true => false
  | x, y => dyLe (fdy x) (fdy y)

/-- The IEEE `<` comparison. -/
def flt (x y : Fp) : Bool :=
  match x, y with
  | .nan, _ => false
  | _, .nan => false
  | .inf true, .inf true => false
  | .inf true, _ => true
  | _, .inf true => false
  | .inf false, _ => false
  | _, .inf false => true
  | x, y => dyLt (fdy x) (fdy y)

/-- The IEEE `==` comparison: false whenever an operand is NaN, and
`+0.0 == -0.0`. -/
def feq (x y : Fp) : Bool :=
  match x, y with
  | .nan, _ => false
  | _, .nan => false
  | .inf s, .inf t => s == t
  | .inf _, _ => false
  | _, .inf _ => false
  | x, y => dyEq (fdy x) (fdy y)

/-- The IEEE `>` comparison. -/
def fgt (x y : Fp) : Bool := flt y x

/-- IEEE negation (flips the sign bit, also of zeros and infinities). -/
def fneg : Fp → Fp
  | .nan => .nan
  | .inf s => .inf (!s)
  | .zero s => .zero (!s)
  | .finite d => .finite ⟨-d.m, d.e⟩

/-- Fuel-driven floor of the base-2 logarithm; the fuel only bounds the
recursion depth and `natLog2` always supplies enough of it.  Written
with a bare `Nat.rec` of function motive so that the kernel can peel
the fuel lazily (the structural-recursion compilation would build the
whole `below` tower for a large fuel literal). -/
def natLog2F : Nat → Nat → Nat := fun fuel =>
  Nat.rec (motive := fun _ => Nat → Nat)
    (fun _ => 0)
    (fun _ ih n => if 2 ≤ n then ih (n / 2) + 1 else 0)
    fuel

/-- Floor of the base-2 logarithm of a positive natural number (0 on 0). -/
def natLog2 (n : Nat) : Nat := natLog2F n n

/-- Whether `b * 2^c ≤ a`, for a possibly negative exponent `c`. -/
def geShift (a b : Int) (c : Int) : Bool :=
  if 0 ≤ c then decide (b * pow2 c.toNat ≤ a) else decide (b ≤ a * pow2 (-c).toNat)

/-- Floor of the base-2 logarithm of the positive rational `n / d`. -/
def ratFloorLog2 (n d : Nat) : Int :=
  let c : Int := (natLog2 n : Int) - (natLog2 d : Int)
  if geShift (n : Int) (d : Int) c then c else c - 1

/-- Round the nonnegative rational `n / d` to the nearest natural
number, ties to even. -/
def rneFrac (n d : Nat) : Nat :=
  let q := n / d
  let r := n % d
  if 2 * r < d then q
  else if d < 2 * r then q + 1
  else if q % 2 = 0 then q else q + 1

/-- The two IEEE-754 binary formats used by the repository. -/
inductive FpK where
  | f32 | f64
deriving DecidableEq

/-- Significand precision in bits (24 for binary32, 53 for binary64). -/
def FpK.prec : FpK → Nat
  | .f32 => 24
  | .f64 => 53

/-- Minimum normal exponent (−126 for binary32, −1022 for binary64). -/
def FpK.emin : FpK → Int
  | .f32 => -126
  | .f64 => -1022

/-- The largest finite value of the format as a dyadic rational:
`(2^prec − 1) * 2^(emax − prec + 1)`, i.e. `f32::MAX` and `f64::MAX`. -/
def FpK.maxDy : FpK → Dy
  | .f32 => ⟨16777215, 104⟩
  | .f64 => ⟨9007199254740991, 971⟩

/-- IEEE round-to-nearest-even of the rational `num / den` into format
`p`: returns a signed zero on underflow to zero, a signed infinity on
overflow past the largest finite value, and otherwise the exactly
representable rounded finite value (the exponent is clamped at the
subnormal range, so subnormal results are produced correctly). -/
def roundFp (p : FpK) (num : Int) (den : Nat) : Fp :=
  if num = 0 ∨ den = 0 then .zero false
  else
    let s : Bool := decide (num < 0)
    let n : Nat := num.natAbs
    let e : Int := max (ratFloorLog2 n den) p.emin
    let u : Int := e - ((p.prec : Int) - 1)
    let M : Nat :=
      if 0 ≤ u then rneFrac n (den * 2 ^ u.toNat) else rneFrac (n * 2 ^ (-u).toNat) den
    if M = 0 then .zero s
    else if dyLt p.maxDy ⟨(M : Int), u⟩ then .inf s
    else .finite ⟨if s then -(M : Int) else (M : Int), u⟩

/-- The Rust `as` conversion from an integer to a float of format `p`
(round to nearest, ties to even; exact whenever the integer fits in the
significand). -/
def intAsFp (p : FpK) (n : Int) : Fp := roundFp p n 1

/-- Rounding of a dyadic value into format `p`. -/
def dyAsFp (p : FpK) (d : Dy) : Fp :=
  if 0 ≤ d.e then roundFp p (d.m * pow2 d.e.toNat) 1 else roundFp p d.m (2 ^ (-d.e).toNat)

/-- The Rust `as` narrowing conversion between float formats: NaN,
infinities and signed zeros pass through, finite values are rounded
(overflowing to an infinity of the same sign past the target range). -/
def fpNarrow (p : FpK) : Fp → Fp
  | .nan => .nan
  | .inf s => .inf s
  | .zero s => .zero s
  | .finite d => dyAsFp p d

/-- The IEEE division `1.0 / x` in format `p`: the exact reciprocal
correctly rounded, with `1/±0 = ±∞` and `1/±∞ = ±0`. -/
def recipFp (p : FpK) : Fp → Fp
  | .nan => .nan
  | .inf s => .zero s
  | .zero s => .inf s
  | .finite d =>
      if 0 ≤ d.e then roundFp p d.m.sign (d.m.natAbs * 2 ^ d.e.toNat)
      else roundFp p (d.m.sign * pow2 (-d.e).toNat) d.m.natAbs

/-- Truncation of a dyadic value toward zero, the float-to-integer
`as` conversion applied to an in-range value. -/
def dyTrunc (d : Dy) : Int :=
  if 0 ≤ d.e then d.m * pow2 d.e.toNat
  else (if d.m < 0 then -1 else 1) * ((d.m.natAbs / 2 ^ (-d.e).toNat : Nat) : Int)

/-- Truncation of a float datum toward zero (only applied under the
range guards of the casts, where the datum is finite). -/
def fpTrunc : Fp → Int
  | .finite d => dyTrunc d
  | _ => 0

/-- The `impl_cast_float_to_int` macro of `src/lib.rs`: the value is
accepted when it lies between the target bounds converted into the
source float format. -/
def castFloatToInt (p : FpK) (dst : Kind) (x : Fp) : Option Int :=
  if fle (intAsFp p (minValue dst)) x && fle x (intAsFp p (maxValue dst)) then
    some (fpTrunc x)
  else
    none

/-- The `impl_cast_float_to_uint` macro of `src/lib.rs`: the value is
accepted when it lies between `0.0` and the target maximum converted
into the source float format. -/
def castFloatToUint (p : FpK) (dst : Kind) (x : Fp) : Option Int :=
  if fle (.zero false) x && fle x (intAsFp p (maxValue dst)) then
    some (fpTrunc x)
  else
    none

/-- The float-to-integer rows of the instantiation table of
`src/lib.rs` (lines 399-408 and 412-421): signed targets use
`impl_cast_float_to_int`, unsigned targets `impl_cast_float_to_uint`. -/
def floatCastToInt (p : FpK) (dst : Kind) (x : Fp) : Option Int :=
  if dst.signed then castFloatToInt p dst x else castFloatToUint p dst x

/-- The `impl_cast_float_to_float` macro of `src/lib.rs` instantiated
at `(f64, f32)` (line 422): the narrowing branch compares the value
against `<f64>::max_value()` — the SOURCE maximum, as written in the
macro — and on success narrows with `as f32`. -/
def castF64ToF32 (x : Fp) : Option Fp :=
  if fle (fneg (.finite FpK.f64.maxDy)) x && fle x (.finite FpK.f64.maxDy) then
    some (fpNarrow .f32 x)
  else
    none

/-- The `impl_cast_float_to_float` macro instantiated at `(f32, f64)`
(line 410): the widening branch returns `Some(x as f64)`
unconditionally, and widening is exact. -/
def castF32ToF64 (x : Fp) : Option Fp := some x

/-- The `impl_cast_same_type` macro instantiated at `f32` and `f64`
(lines 409 and 423). -/
def castSameFloat (x : Fp) : Option Fp := some x

/-- The `impl_cast_int_to_float` macro of `src/lib.rs`: always
`Some(x as $Dst)`. -/
def intCastToFloat (p : FpK) (x : Int) : Option Fp := some (intAsFp p x)

/-- The `is_positive` method of `impl_signed_float` in
`src/signed.rs`: `*self > 0.0 || (1.0 / *self) == INFINITY`. -/
def fpIsPositive (p : FpK) (x : Fp) : Bool :=
  fgt x (.zero false) || feq (recipFp p x) (.inf false)

/-- The `is_negative` method of `impl_signed_float` in
`src/signed.rs`: `*self < 0.0 || (1.0 / *self) == NEG_INFINITY`. -/
def fpIsNegative (p : FpK) (x : Fp) : Bool :=
  flt x (.zero false) || feq (recipFp p x) (.inf true)


/-- The Rust truncated integer division (`/` on primitive integers):
the quotient is rounded toward zero. -/
def rustDiv (a b : Int) : Int :=
  (if decide (a < 0) = decide (b < 0) then 1 else -1) * ((a.natAbs / b.natAbs : Nat) : Int)

/-- Models the Rust standard `wrapping_div`, to which the
`Int::wrapping_div` method of `src/int.rs` forwards: truncated division
wrapped at the boundary of the type (`MIN / -1` wraps back to `MIN`).
Per its standard documentation the function panics when the divisor is
zero; the panic is modelled as `none`. -/
def wrappingDiv (k : Kind) (a b : Int) : Option Int :=
  if b = 0 then none else some (asCast k (rustDiv a b))

/-- Models the Rust standard `pow` (wrapping, overflow checks
disabled), to which `Int::pow` of `src/int.rs` forwards.  Repeated
wrapped multiplication is congruent modulo `2^bits` to the plain
power, so the result is the `as`-cast of the mathematical power. -/
def wrappingPow (k : Kind) (a : Int) (e : Nat) : Int := asCast k (a ^ e)

/-- Models the Rust standard `abs`, to which the `Signed::abs`
implementation of `src/signed.rs` forwards, with the wrapping
behaviour pinned by the trait documentation of `src/signed.rs`
(for signed integers, MIN is returned if the number is MIN). -/
def signedAbs (k : Kind) (a : Int) : Int := asCast k |a|

/-- Any `as`-cast result lies in the representable range of the target
kind. -/
theorem asCast_mem_range (k : Kind) (n : Int) :
    minValue k ≤ asCast k n ∧ asCast k n ≤ maxValue k := by
  cases k <;>
    simp only [asCast, wrapS, wrapU, minValue, maxValue] <;>
    (try split_ifs) <;> omega

/-- `pow2` is positive. -/
theorem pow2_pos (k : Nat) : 0 < pow2 k := by
  unfold pow2
  exact_mod_cast Nat.pos_pow_of_pos k (by norm_num)

/-- A dyadic value is greater than zero exactly when its significand
is positive. -/
theorem dyLt_zero_pos (d : Dy) : dyLt ⟨0, 0⟩ d = true ↔ 0 < d.m := by
  unfold dyLt
  dsimp only
  split_ifs with h
  · simp only [decide_eq_true_eq]
    constructor
    · intro hlt
      nlinarith [pow2_pos (d.e - 0).toNat]
    · intro hm
      exact mul_pos hm (pow2_pos _)
  · simp

/-- A dyadic value is less than zero exactly when its significand is
negative. -/
theorem dyLt_zero_neg (d : Dy) : dyLt d ⟨0, 0⟩ = true ↔ d.m < 0 := by
  unfold dyLt
  dsimp only
  split_ifs with h
  · simp
  · simp only [decide_eq_true_eq]
    constructor
    · intro hlt
      nlinarith [pow2_pos (d.e - 0).toNat]
    · intro hm
      exact mul_neg_of_neg_of_pos hm (pow2_pos _)

/-- IEEE equality against an infinity holds only for that same
infinity. -/
theorem feq_inf_iff (y : Fp) (s : Bool) : feq y (.inf s) = true ↔ y = .inf s := by
  cases y <;> simp [feq]

/-- When the rounding returns an infinity, its sign is the sign of the
numerator. -/
theorem roundFp_inf_sign (p : FpK) (num : Int) (den : Nat) (s : Bool)
    (h : roundFp p num den = .inf s) : s = decide (num < 0) := by
  unfold roundFp at h
  by_cases h1 : num = 0 ∨ den = 0
  · rw [if_pos h1] at h
    exact absurd h (by simp)
  · rw [if_neg h1] at h
    dsimp only at h
    split_ifs at h <;> injection h with h2 <;> exact h2.symm

/-- The sign of an integer is negative exactly when the integer is. -/
theorem sign_neg_iff (n : Int) : n.sign < 0 ↔ n < 0 := by
  rcases lt_trichotomy n 0 with h | h | h
  · rw [Int.sign_eq_neg_one_iff_neg.mpr h]
    simp [h]
  · subst h
    simp
  · rw [Int.sign_eq_one_iff_pos.mpr h]
    constructor
    · intro hc
      exact absurd hc (by norm_num)
    · intro hc
      exact absurd hc (by omega)

/-- When the reciprocal of a finite value is an infinity, its sign is
the sign of the value. -/
theorem recip_inf_sign (p : FpK) (d : Dy) (s : Bool)
    (h : recipFp p (.finite d) = .inf s) : s = decide (d.m < 0) := by
  simp only [recipFp] at h
  split_ifs at h with he
  · rw [roundFp_inf_sign _ _ _ _ h]
    simp only [decide_eq_decide]
    exact sign_neg_iff d.m
  · rw [roundFp_inf_sign _ _ _ _ h]
    simp only [decide_eq_decide]
    constructor
    · intro hlt
      by_contra hge
      have hs : 0 ≤ d.m.sign := not_lt.mp fun hc => hge ((sign_neg_iff _).mp hc)
      exact absurd hlt (not_lt.mpr (mul_nonneg hs (le_of_lt (pow2_pos _))))
    · intro hm
      exact mul_neg_of_neg_of_pos ((sign_neg_iff _).mpr hm) (pow2_pos _)

/-- C7: the float sign predicates of `src/signed.rs` classify the
signed zeros and the infinities correctly, in both formats:
`is_positive(+0.0)`, `is_positive(+inf)`, `is_negative(-0.0)` and
`is_negative(-inf)` all hold. -/
theorem float_sign_predicates_signed_zero_inf :
    (fpIsPositive .f32 (.zero false) = true ∧ fpIsNegative .f32 (.zero true) = true ∧
      fpIsPositive .f32 (.inf false) = true ∧ fpIsNegative .f32 (.inf true) = true) ∧
    (fpIsPositive .f64 (.zero false) = true ∧ fpIsNegative .f64 (.zero true) = true ∧
      fpIsPositive .f64 (.inf false) = true ∧ fpIsNegative .f64 (.inf true) = true) := by
  decide

/-- C10: the float sign predicates of `src/signed.rs` are both false on
NaN, and no float datum is classified as both positive and negative. -/
theorem float_sign_predicates_nan_exclusive :
    (∀ p : FpK, fpIsPositive p .nan = false ∧ fpIsNegative p .nan = false) ∧
    ∀ (p : FpK) (x : Fp), (fpIsPositive p x && fpIsNegative p x) = false := by
  constructor
  · intro p
    cases p <;> exact ⟨rfl, rfl⟩
  · intro p x
    by_contra hc
    obtain ⟨hp, hn⟩ : fpIsPositive p x = true ∧ fpIsNegative p x = true := by
      simpa using hc
    cases x with
    | nan => cases p <;> exact absurd hp (by decide)
    | inf s => cases s <;> cases p <;> revert hp <;> revert hn <;> decide
    | zero s => cases s <;> cases p <;> revert hp <;> revert hn <;> decide
    | finite d =>
      rw [fpIsPositive, Bool.or_eq_true] at hp
      rw [fpIsNegative, Bool.or_eq_true] at hn
      have hgt : fgt (Fp.finite d) (Fp.zero false) = true ↔ 0 < d.m := by
        show dyLt ⟨0, 0⟩ d = true ↔ 0 < d.m
        exact dyLt_zero_pos d
      have hlt : flt (Fp.finite d) (Fp.zero false) = true ↔ d.m < 0 := by
        show dyLt d ⟨0, 0⟩ = true ↔ d.m < 0
        exact dyLt_zero_neg d
      rcases hp with hp1 | hp2 <;> rcases hn with hn1 | hn2
      · have h1 := hgt.mp hp1
        have h2 := hlt.mp hn1
        omega
      · have h1 := hgt.mp hp1
        have h2 := recip_inf_sign p d true ((feq_inf_iff _ _).mp hn2)
        have h3 : d.m < 0 := of_decide_eq_true h2.symm
        omega
      · have h1 := hlt.mp hn1
        have h2 := recip_inf_sign p d false ((feq_inf_iff _ _).mp hp2)
        have h3 : ¬ d.m < 0 := by simpa using h2.symm
        exact h3 h1
      · have e1 := (feq_inf_iff _ _).mp hp2
        have e2 := (feq_inf_iff _ _).mp hn2
        rw [e1] at e2
        exact absurd e2 (by decide)

/-- C5 counterexample: the narrowing cast does not pass NaN through —
a NaN f64 input fails the range guard (both comparisons are false for
NaN) and the cast returns `None`, not `Some` of a NaN. -/
theorem narrowing_nan_counterexample : castF64ToF32 Fp.nan = none := by decide

/-- C5 amended: the narrowing float cast rejects NaN: `f32::cast_from`
applied to a NaN f64 datum produces the absent result. -/
theorem narrowing_rejects_nan : (castF64ToF32 Fp.nan).isNone = true := by decide

/-- C2: the code evaluated at a failing input of the claim.  The
narrowing guard of `impl_cast_float_to_float` compares against
`<f64>::max_value()` (the source maximum), so the finite f64 value
`2^130`, which exceeds `f32::MAX` (second conjunct) and must map to
`None` under the claim, instead passes the guard and overflows to
`Some(+inf)`.  The remaining conjuncts record the two examples of the
claim that the code does satisfy: the value of the overflowing literal
`1.0e309f64` is `+inf`, which is rejected, and `1.0f64` narrows to
`Some(1.0f32)`. -/
theorem f64_to_f32_guard_uses_source_max :
    castF64ToF32 (.finite ⟨1, 130⟩) = some (.inf false) ∧
    dyLt FpK.f32.maxDy ⟨1, 130⟩ = true ∧
    castF64ToF32 (.inf false) = none ∧
    castF64ToF32 (.finite ⟨1, 0⟩) = some (.finite ⟨8388608, -23⟩) ∧
    feq (.finite ⟨8388608, -23⟩) (.finite ⟨1, 0⟩) = true := by
  decide

/-- C4: a float-to-integer cast succeeds exactly when the value lies
between the target bounds converted into the source float format (for
unsigned targets the lower bound `0.0` equals the converted minimum, so
the single formulation covers both macros); NaN and both infinities are
always rejected; `i32::cast_from(1.0e123f64)` is `None` and
`f32::cast_from(32i32)` is `Some(32.0f32)` (the int-to-float direction
is unconditional, and the result compares IEEE-equal to 32.0). -/
theorem float_to_int_range_guard :
    (∀ (p : FpK) (dst : Kind) (x : Fp),
        (floatCastToInt p dst x).isSome =
          (fle (intAsFp p (minValue dst)) x && fle x (intAsFp p (maxValue dst)))) ∧
    (∀ (p : FpK) (dst : Kind),
        floatCastToInt p dst .nan = none ∧
        floatCastToInt p dst (.inf false) = none ∧
        floatCastToInt p dst (.inf true) = none) ∧
    floatCastToInt .f64 .i32 (.finite ⟨10 ^ 123, 0⟩) = none ∧
    intCastToFloat .f32 32 = some (.finite ⟨8388608, -18⟩) ∧
    feq (.finite ⟨8388608, -18⟩) (.finite ⟨32, 0⟩) = true := by
  refine ⟨?_, ?_, by decide, by decide, by decide⟩
  · intro p dst x
    have hz : intAsFp p 0 = Fp.zero false := rfl
    have key : ∀ (a b : Bool) (y : Int),
        (if a = true ∧ b = true then some y else (none : Option Int)).isSome = (a && b) := by
      intro a b y
      cases a <;> cases b <;> simp
    cases dst <;>
      simp [floatCastToInt, castFloatToInt, castFloatToUint, Kind.signed, minValue, hz, key]
  · intro p dst
    cases p <;> cases dst <;> refine ⟨by decide, by decide, by decide⟩

/-- C8: the identity conversion never fails and never alters the value,
for every integer kind (via the diagonal `impl_cast_same_type` entries
of the table) and for the float kinds (`impl_cast_same_type!(f32)` and
`impl_cast_same_type!(f64)`). -/
theorem cast_identity :
    (∀ (k : Kind) (v : Int), castFrom k k v = some v) ∧
    ∀ x : Fp, castSameFloat x = some x := by
  refine ⟨fun k v => ?_, fun x => rfl⟩
  cases k <;> rfl

/-- C3 counterexample: `wrapping_div` is not total — the standard
function the trait forwards to panics (modelled `none`) on a zero
divisor. -/
theorem wrapping_div_zero_divisor_panics : wrappingDiv .i32 1 0 = none := rfl

/-- C3 amended: the cited operations are total except for the zero
divisor of the division family: `wrapping_div` returns a value whenever
the divisor is nonzero and panics (modelled `none`) on divisor zero;
`Signed::abs` is total and returns MIN at MIN (wrapping, as pinned by
the trait documentation); `pow` under wrapping semantics always returns
an in-range value. -/
theorem int_ops_total_except_zero_divisor (k : Kind) (a b : Int) (e : Nat) (hb : b ≠ 0) :
    (wrappingDiv k a b).isSome = true ∧
    wrappingDiv k a 0 = none ∧
    signedAbs k (minValue k) = minValue k ∧
    minValue k ≤ wrappingPow k a e ∧ wrappingPow k a e ≤ maxValue k := by
  refine ⟨?_, ?_, ?_, (asCast_mem_range k (a ^ e)).1, (asCast_mem_range k (a ^ e)).2⟩
  · simp [wrappingDiv, hb]
  · simp [wrappingDiv]
  · cases k <;> decide

/-- Witness for C3 at concrete inputs. -/
theorem int_ops_total_except_zero_divisor_witness :
    (wrappingDiv .i32 5 3).isSome = true ∧
    wrappingDiv .i32 5 0 = none ∧
    signedAbs .i32 (minValue .i32) = minValue .i32 ∧
    minValue .i32 ≤ wrappingPow .i32 5 2 ∧ wrappingPow .i32 5 2 ≤ maxValue .i32 :=
  int_ops_total_except_zero_divisor .i32 5 3 2 (by decide)
